import Mathlib

/-!
Verification of the voltron orchestrator (github.com/govoltron/voltron).

Part 1 embeds the discovery watcher of `client.go` (`discoveryWatcher.Init`,
`reinit`, `OnUpdateEndpoint`, `OnDeleteEndpoint`): the endpoint directory is a
Go map from endpoint ID to the endpoint, modelled as a key-unique association
list, and the wrapped client implementation is an oracle whose `ReInit` result
the watcher discards.

Part 2 embeds the orchestrator (`Voltron.Run`, `Voltron.init`, `Voltron.run`,
`service.Prepare`, `service.boot`) as a small-step transition system: the
orchestrator thread runs a deterministic program counter, each booted service
goroutine is a task that may interleave, and the environment may cancel the
run context at any time.  Temporal claims become inductive invariants over the
reachable states.
-/

namespace GoVoltron

/-- `matrix.Endpoint`: one addressable backend instance, identity is `ID`. -/
structure Endpoint where
  id : String
  addr : String
  weight : Int
deriving DecidableEq, Repr

/-- Go map `map[string]matrix.Endpoint` as an association list keyed by ID. -/
def EpDir := List (String × Endpoint)

instance : DecidableEq EpDir := by unfold EpDir; infer_instance

/-- Map lookup `w.endpoints[id]`. -/
def epLookup : EpDir → String → Option Endpoint
  | [], _ => none
  | (k, v) :: t, i => if k = i then some v else epLookup t i

/-- Map store `w.endpoints[e.ID] = e`: replace the entry with key `e.id`, or
append a fresh one. -/
def epInsert : EpDir → Endpoint → EpDir
  | [], e => [(e.id, e)]
  | (k, v) :: t, e => if k = e.id then (k, e) :: t else (k, v) :: epInsert t e

/-- Map removal `delete(w.endpoints, id)`. -/
def epErase : EpDir → String → EpDir
  | [], _ => []
  | (k, v) :: t, i => if k = i then t else (k, v) :: epErase t i

theorem epLookup_epInsert_self (l : EpDir) (e : Endpoint) :
    epLookup (epInsert l e) e.id = some e := by
  induction l with
  | nil => simp [epInsert, epLookup]
  | cons h t ih =>
    obtain ⟨k, v⟩ := h
    by_cases hk : k = e.id <;> simp [epInsert, epLookup, hk, ih]

theorem epLookup_epErase_ne (l : EpDir) (i j : String) (hij : j ≠ i) :
    epLookup (epErase l i) j = epLookup l j := by
  have hij2 : ¬ i = j := fun hc => hij hc.symm
  induction l with
  | nil => rfl
  | cons h t ih =>
    obtain ⟨k, v⟩ := h
    by_cases hk : k = i
    · subst hk
      simp [epErase, epLookup, hij2]
    · by_cases hkj : k = j
      · subst hkj
        simp [epErase, epLookup, hk]
      · simp [epErase, epLookup, hk, hkj, ih]

theorem epLookup_eq_none_of_key_absent (l : EpDir) (i : String)
    (h : i ∉ l.map Prod.fst) : epLookup l i = none := by
  induction l with
  | nil => rfl
  | cons hd t ih =>
    obtain ⟨k, v⟩ := hd
    simp only [List.map_cons, List.mem_cons] at h
    push_neg at h
    have hk : ¬ k = i := fun hc => h.1 hc.symm
    simp [epLookup, hk, ih h.2]

theorem epLookup_epErase_self (l : EpDir) (i : String)
    (hnd : (l.map Prod.fst).Nodup) : epLookup (epErase l i) i = none := by
  induction l with
  | nil => rfl
  | cons h t ih =>
    obtain ⟨k, v⟩ := h
    simp only [List.map_cons, List.nodup_cons] at hnd
    by_cases hk : k = i
    · subst hk
      simp only [epErase, if_pos rfl]
      exact epLookup_eq_none_of_key_absent t _ hnd.1
    · simp [epErase, epLookup, hk, ih hnd.2]

/-- The mutable state of one `discoveryWatcher`: the raw config bytes
(`w.options`, `nil` after `OnDelenv`) and the endpoint directory
(`w.endpoints`). -/
structure WState where
  options : Option String
  endpoints : EpDir
deriving DecidableEq

/-- `discoveryWatcher.OnUpdateEndpoint` (src/client.go): if the cached entry
for `e.id` has the same `Addr` and `Weight`, return without touching anything
and without calling `reinit`; otherwise store the endpoint and call `reinit`.
The boolean records whether `reinit` (and hence the implementation's `ReInit`)
was invoked. -/
def OnUpdateEndpoint (w : WState) (e : Endpoint) : WState × Bool :=
  match epLookup w.endpoints e.id with
  | some ep =>
    if ep.addr = e.addr ∧ ep.weight = e.weight then (w, false)
    else ({ w with endpoints := epInsert w.endpoints e }, true)
  | none => ({ w with endpoints := epInsert w.endpoints e }, true)

/-- `discoveryWatcher.OnDeleteEndpoint` (src/client.go): if the ID is absent,
return without touching anything and without calling `reinit`; otherwise
delete the entry and call `reinit`. -/
def OnDeleteEndpoint (w : WState) (i : String) : WState × Bool :=
  match epLookup w.endpoints i with
  | none => (w, false)
  | some _ => ({ w with endpoints := epErase w.endpoints i }, true)

/-- `discoveryWatcher.OnUpdateEndpoint` with the wrapped implementation's
`ReInit` made explicit as an oracle `reinit` over the watcher state it reads
(`w.reinit` reads `w.options` and `w.endpoints` after the handler has mutated
them).  The second component records every `reinit` invocation as the state
snapshot it was given together with the error it returned; the handler itself
returns nothing, exactly like the Go method, so the error can go nowhere. -/
def OnUpdateEndpointR (reinit : WState → Option String) (w : WState)
    (e : Endpoint) : WState × List (WState × Option String) :=
  match epLookup w.endpoints e.id with
  | some ep =>
    if ep.addr = e.addr ∧ ep.weight = e.weight then (w, [])
    else
      let w2 : WState := { w with endpoints := epInsert w.endpoints e }
      (w2, [(w2, reinit w2)])
  | none =>
    let w2 : WState := { w with endpoints := epInsert w.endpoints e }
    (w2, [(w2, reinit w2)])

/-- The broker collaborator as seen by `discoveryWatcher.Init`: the value of
`broker.Getenv(ctx, "options")` and the snapshot `broker.Endpoints()`. -/
structure Broker where
  optionEnv : String
  eps : List Endpoint

/-- Interactions performed by `discoveryWatcher.Init`, in order. -/
inductive WatchEvent where
  | getenvCall
  | listEndpoints
  | implInit (res : Option String)
  | watchSelf
deriving DecidableEq, Repr

/-- Go `defer`: the deferred action runs after the body, on every exit path of
the (single-exit) function. -/
def withDeferred (body : WState × Option String × List WatchEvent)
    (fin : WatchEvent) : WState × Option String × List WatchEvent :=
  (body.1, body.2.1, body.2.2 ++ [fin])

/-- `discoveryWatcher.Init` (src/client.go): `defer broker.Watch(w)`; fetch the
raw options; build the directory from the endpoint snapshot (`for ... range
endpoints`, later duplicate IDs overwriting earlier ones); call the
implementation's `Init` and return its error.  `implInitRes` is the error the
wrapped implementation returns from that `Init` call. -/
def watcherInit (b : Broker) (implInitRes : Option String) :
    WState × Option String × List WatchEvent :=
  withDeferred
    (let opts := some b.optionEnv
     let dir := b.eps.foldl (fun m e => epInsert m e) []
     (⟨opts, dir⟩, implInitRes,
       [.getenvCall, .listEndpoints, .implInit implInitRes]))
    .watchSelf

theorem OnUpdateEndpoint_cached_eq (w : WState) (e ep : Endpoint)
    (hc : epLookup w.endpoints e.id = some ep) (ha : ep.addr = e.addr)
    (hw : ep.weight = e.weight) : OnUpdateEndpoint w e = (w, false) := by
  simp [OnUpdateEndpoint, hc, ha, hw]

theorem OnUpdateEndpoint_lookup_after (w : WState) (e : Endpoint) :
    epLookup (OnUpdateEndpoint w e).1.endpoints e.id = some e ∨
      OnUpdateEndpoint w e = (w, false) := by
  unfold OnUpdateEndpoint
  cases hc : epLookup w.endpoints e.id with
  | none => exact Or.inl (epLookup_epInsert_self _ _)
  | some ep =>
    by_cases heq : ep.addr = e.addr ∧ ep.weight = e.weight
    · simp [heq]
    · simp only [heq, if_neg heq]
      exact Or.inl (epLookup_epInsert_self _ _)

/-- C6: an `EndpointUpdate` whose `(address, weight)` pair equals the cached
entry for the same ID leaves the directory unchanged and does not call
`ReInit`; delivering the same endpoint twice makes the second delivery a
complete no-op, so at most one `ReInit` results (beyond the initial bind), and
an update for a fresh ID does trigger that one `ReInit`. -/
theorem update_endpoint_idempotent (w : WState) (e : Endpoint) :
    (∀ ep, epLookup w.endpoints e.id = some ep → ep.addr = e.addr →
      ep.weight = e.weight → OnUpdateEndpoint w e = (w, false)) ∧
    OnUpdateEndpoint (OnUpdateEndpoint w e).1 e = ((OnUpdateEndpoint w e).1, false) ∧
    (epLookup w.endpoints e.id = none → (OnUpdateEndpoint w e).2 = true) := by
  refine ⟨fun ep hc ha hw => OnUpdateEndpoint_cached_eq w e ep hc ha hw, ?_, ?_⟩
  · rcases OnUpdateEndpoint_lookup_after w e with h | h
    · exact OnUpdateEndpoint_cached_eq _ e e h rfl rfl
    · rw [show (OnUpdateEndpoint w e).1 = w from congrArg Prod.fst h]
      exact h
  · intro hc
    simp [OnUpdateEndpoint, hc]

theorem update_endpoint_idempotent_witness :
    OnUpdateEndpoint ⟨some "o", [("e1", ⟨"e1", "10.0.0.1:80", 100⟩)]⟩
        ⟨"e1", "10.0.0.1:80", 100⟩ =
      (⟨some "o", [("e1", ⟨"e1", "10.0.0.1:80", 100⟩)]⟩, false) :=
  (update_endpoint_idempotent ⟨some "o", [("e1", ⟨"e1", "10.0.0.1:80", 100⟩)]⟩
      ⟨"e1", "10.0.0.1:80", 100⟩).1 ⟨"e1", "10.0.0.1:80", 100⟩ (by decide)
    (by decide) (by decide)

/-- C7: an `EndpointDelete` for an ID absent from the directory is a complete
no-op (directory unchanged, no `ReInit`); for a present ID the entry is
removed (all other IDs keeping their entries, the deleted ID resolving to
nothing when the directory keys are unique, as they are for a Go map) and
`ReInit` is called. -/
theorem delete_endpoint_spec (w : WState) (i : String) :
    (epLookup w.endpoints i = none → OnDeleteEndpoint w i = (w, false)) ∧
    (∀ ep, epLookup w.endpoints i = some ep →
      (OnDeleteEndpoint w i).2 = true ∧
      (∀ j, j ≠ i →
        epLookup (OnDeleteEndpoint w i).1.endpoints j = epLookup w.endpoints j) ∧
      ((w.endpoints.map Prod.fst).Nodup →
        epLookup (OnDeleteEndpoint w i).1.endpoints i = none)) := by
  constructor
  · intro hc
    simp [OnDeleteEndpoint, hc]
  · intro ep hc
    refine ⟨by simp [OnDeleteEndpoint, hc], fun j hj => ?_, fun hnd => ?_⟩
    · simp only [OnDeleteEndpoint, hc]
      exact epLookup_epErase_ne _ i j hj
    · simp only [OnDeleteEndpoint, hc]
      exact epLookup_epErase_self _ i hnd

theorem delete_endpoint_spec_witness :
    OnDeleteEndpoint ⟨some "o", [("e1", ⟨"e1", "10.0.0.1:80", 100⟩)]⟩ "missing" =
      (⟨some "o", [("e1", ⟨"e1", "10.0.0.1:80", 100⟩)]⟩, false) :=
  (delete_endpoint_spec ⟨some "o", [("e1", ⟨"e1", "10.0.0.1:80", 100⟩)]⟩
      "missing").1 (by decide)

/-- C8: after a discovery event, the watcher state is committed before the
implementation's `ReInit` runs and is the same whatever error `ReInit`
returns (no rollback); `ReInit` is invoked at most once (no retry); every
invocation receives exactly the committed new state; and the handler returns
nothing, so the error is not propagated out of it. -/
theorem reinit_error_ignored (f g : WState → Option String) (w : WState)
    (e : Endpoint) :
    (OnUpdateEndpointR f w e).1 = (OnUpdateEndpointR g w e).1 ∧
    (OnUpdateEndpointR f w e).2.length = (OnUpdateEndpointR g w e).2.length ∧
    (OnUpdateEndpointR f w e).2.length ≤ 1 ∧
    (∀ p ∈ (OnUpdateEndpointR f w e).2, p.1 = (OnUpdateEndpointR f w e).1) := by
  unfold OnUpdateEndpointR
  cases hc : epLookup w.endpoints e.id with
  | none => simp
  | some ep =>
    by_cases heq : ep.addr = e.addr ∧ ep.weight = e.weight
    · simp [heq]
    · simp [heq]

theorem reinit_error_ignored_witness :
    ((OnUpdateEndpointR (fun _ => some "reinit-failed")
        ⟨some "o", []⟩ ⟨"e1", "10.0.0.1:80", 100⟩).1 =
      (OnUpdateEndpointR (fun _ => none)
        ⟨some "o", []⟩ ⟨"e1", "10.0.0.1:80", 100⟩).1) ∧
    (OnUpdateEndpointR (fun _ => some "reinit-failed")
        ⟨some "o", []⟩ ⟨"e1", "10.0.0.1:80", 100⟩).2.length ≤ 1 := by
  have h := reinit_error_ignored (fun _ => some "reinit-failed") (fun _ => none)
    ⟨some "o", []⟩ ⟨"e1", "10.0.0.1:80", 100⟩
  exact ⟨h.1, h.2.2.1⟩

/-- C10: `discoveryWatcher.Init` registers the watcher as the broker's event
observer through a deferred call, which runs on every exit path of the
single-exit `Init` body — in particular when the wrapped implementation's
`Init` returns an error; the built `DiscoveryState` is likewise the same
whatever that error is, so a failed client still receives discovery events
afterwards. -/
theorem watcher_always_watches (b : Broker) (res : Option String) :
    (watcherInit b res).2.1 = res ∧
    (watcherInit b res).2.2.getLast? = some .watchSelf ∧
    WatchEvent.watchSelf ∈ (watcherInit b res).2.2 ∧
    (watcherInit b res).1 = (watcherInit b none).1 := by
  refine ⟨rfl, ?_, ?_, rfl⟩
  · simp [watcherInit, withDeferred]
  · simp [watcherInit, withDeferred]

/-- Errors surfaced by `Voltron.Run`: the sentinel `ErrInvalidCluster`,
or an error propagated from a client's or service's `Init` (or from
`cluster.NewBroker`). -/
inductive RunError where
  | invalidCluster
  | other (msg : String)
deriving DecidableEq, Repr

/-- One registration in the process-wide `manifest`, as `Voltron.init` sees
it: either `c.options` is not a `*DiscoveryOptions` (a static client, whose
implementation `Init` returns `initRes`), or it is discovery-bound
(`initBroker`, i.e. `cluster.NewBroker`, returns `brokerRes`, and on its
success the watcher path ends by calling the implementation's `Init`, which
returns `initRes`). -/
inductive ClientKind where
  | plain (initRes : Option String)
  | discovery (brokerRes : Option String) (initRes : Option String)
deriving DecidableEq, Repr

/-- Whether processing this registration reaches the implementation's `Init`
call (for a discovery-bound client, `initBroker` must succeed first). -/
def clientInitCalled : ClientKind → Bool
  | .plain _ => true
  | .discovery br _ => br.isNone

/-- The error with which `Voltron.init` leaves this registration (`none` when
the whole per-client step succeeds and the record is appended to
`vol.clients`). -/
def clientRes : ClientKind → Option String
  | .plain r => r
  | .discovery (some b) _ => some b
  | .discovery none r => r

/-- One `Setup` registration: the service implementation's `Init` result, and
the `WithAutoReport` data (`addr`, `weight`, `ttl`; empty `addr` means the
option was not given). -/
structure SvcSpec where
  initRes : Option String
  addr : String
  weight : Int
  ttl : Int
deriving DecidableEq, Repr

/-- `Voltron.run` acquires a reporter only when `s.addr != ""`. -/
def wantsReport (sp : SvcSpec) : Bool := sp.addr != ""

/-- The environment of one `Voltron.Run` call: whether `Join` was called
(`vol.cluster != nil`), the client manifest, and the service list. -/
structure Config where
  hasCluster : Bool
  clients : List ClientKind
  services : List SvcSpec
deriving DecidableEq, Repr

/-- State of one service goroutine launched by `service.boot`:
not yet launched; blocked in the `select` on the signal channel and
`ctx.Done()`; returned through the `ctx.Done()` branch before the barrier
opened; past the barrier and inside `rt.Run` (keepalive already issued when a
reporter is attached); or returned from `rt.Run` (reporter closed when
attached). -/
inductive TaskState where
  | notSpawned
  | waiting
  | exitedEarly
  | running
  | exited
deriving DecidableEq, Repr

/-- Observable record of one service: its task state, whether a reporter
handle was acquired (`vol.cluster.NewReporter`), and how many times the
implementation's `Init`, `reporter.Keepalive`, `reporter.Close` and the
implementation's `Run` have been invoked. -/
structure SvcRt where
  task : TaskState
  reporter : Bool
  inits : Nat
  keeps : Nat
  closes : Nat
  runs : Nat
deriving DecidableEq, Repr

def SvcRt.fresh : SvcRt := ⟨.notSpawned, false, 0, 0, 0, 0⟩

/-- Program counter of the orchestrator thread through `Voltron.Run`:
the `vol.cluster == nil` check; the `Voltron.init` loop over the manifest;
the `Voltron.run` prepare loop; `gogo()` (closing the signal channel);
`wg.Wait()`; the deferred client-shutdown loop (which carries the pending
return value of `Run`); and the final return. -/
inductive Pc where
  | start
  | initLoop (i : Nat)
  | prepLoop (i : Nat)
  | gogo
  | waitTasks
  | shutdownLoop (i : Nat) (pending : Option RunError)
  | done (res : Option RunError)
deriving DecidableEq, Repr

/-- A global state of the system during one `Voltron.Run` call. -/
structure OState where
  pc : Pc
  svcs : List SvcRt
  appended : List Nat
  initCalls : List Nat
  shutdownCalls : List Nat
  signalClosed : Bool
  gogoCount : Nat
  cancelled : Bool
  initDone : Bool
deriving DecidableEq, Repr

def freshList (cfg : Config) : List SvcRt := cfg.services.map (fun _ => SvcRt.fresh)

/-- The state in which `Voltron.Run` is entered. -/
def startState (cfg : Config) : OState :=
  ⟨.start, freshList cfg, [], [], [], false, 0, false, false⟩

/-- Small-step semantics of one `Voltron.Run` call over `cfg`.  The
orchestrator steps follow the source line by line; `taskGo`, `taskCancelExit`
and `taskFinish` are the steps of the goroutines launched by `service.boot`;
`envCancel` is the caller cancelling the context passed to `Run` (which
propagates to the derived contexts the tasks select on). -/
inductive Step (cfg : Config) : OState → OState → Prop where
  | clusterMissing (s : OState) (hpc : s.pc = .start)
      (hc : cfg.hasCluster = false) :
      Step cfg s { s with pc := .done (some .invalidCluster) }
  | clusterOk (s : OState) (hpc : s.pc = .start) (hc : cfg.hasCluster = true) :
      Step cfg s { s with pc := .initLoop 0 }
  | initBrokerFail (s : OState) (i : Nat) (b : String) (e : Option String)
      (hpc : s.pc = .initLoop i)
      (hck : cfg.clients[i]? = some (.discovery (some b) e)) :
      Step cfg s { s with pc := .done (some (.other b)) }
  | initImplFail (s : OState) (i : Nat) (ck : ClientKind) (e : String)
      (hpc : s.pc = .initLoop i) (hck : cfg.clients[i]? = some ck)
      (hcall : clientInitCalled ck = true) (hres : clientRes ck = some e) :
      Step cfg s { s with initCalls := s.initCalls ++ [i],
                          pc := .done (some (.other e)) }
  | initOk (s : OState) (i : Nat) (ck : ClientKind)
      (hpc : s.pc = .initLoop i) (hck : cfg.clients[i]? = some ck)
      (hres : clientRes ck = none) :
      Step cfg s { s with initCalls := s.initCalls ++ [i],
                          appended := s.appended ++ [i],
                          pc := .initLoop (i + 1) }
  | initLoopDone (s : OState) (i : Nat) (hpc : s.pc = .initLoop i)
      (hck : cfg.clients[i]? = none) :
      Step cfg s { s with initDone := true, pc := .prepLoop 0 }
  | prepFail (s : OState) (i : Nat) (sp : SvcSpec) (e : String)
      (hpc : s.pc = .prepLoop i) (hsp : cfg.services[i]? = some sp)
      (hres : sp.initRes = some e) :
      Step cfg s { s with
        svcs := s.svcs.set i
          { SvcRt.fresh with reporter := wantsReport sp, inits := 1 },
        cancelled := true,
        pc := .shutdownLoop 0 (some (.other e)) }
  | prepOk (s : OState) (i : Nat) (sp : SvcSpec)
      (hpc : s.pc = .prepLoop i) (hsp : cfg.services[i]? = some sp)
      (hres : sp.initRes = none) :
      Step cfg s { s with
        svcs := s.svcs.set i
          ⟨.waiting, wantsReport sp, 1, 0, 0, 0⟩,
        pc := .prepLoop (i + 1) }
  | prepLoopDone (s : OState) (i : Nat) (hpc : s.pc = .prepLoop i)
      (hsp : cfg.services[i]? = none) :
      Step cfg s { s with pc := .gogo }
  | gogoStep (s : OState) (hpc : s.pc = .gogo) :
      Step cfg s { s with signalClosed := true, gogoCount := s.gogoCount + 1,
                          pc := .waitTasks }
  | waitAllDone (s : OState) (hpc : s.pc = .waitTasks)
      (hall : ∀ r ∈ s.svcs, r.task = .exitedEarly ∨ r.task = .exited) :
      Step cfg s { s with cancelled := true, pc := .shutdownLoop 0 none }
  | shutdownNext (s : OState) (i c : Nat) (p : Option RunError)
      (hpc : s.pc = .shutdownLoop i p) (hc : s.appended[i]? = some c) :
      Step cfg s { s with shutdownCalls := s.shutdownCalls ++ [c],
                          pc := .shutdownLoop (i + 1) p }
  | shutdownFinished (s : OState) (i : Nat) (p : Option RunError)
      (hpc : s.pc = .shutdownLoop i p) (hc : s.appended[i]? = none) :
      Step cfg s { s with pc := .done p }
  | taskGo (s : OState) (i : Nat) (r : SvcRt) (hr : s.svcs[i]? = some r)
      (ht : r.task = .waiting) (hsig : s.signalClosed = true) :
      Step cfg s { s with svcs := s.svcs.set i { r with task := .running, keeps := r.keeps + (if r.reporter then 1 else 0), runs := r.runs + 1 } }
  | taskCancelExit (s : OState) (i : Nat) (r : SvcRt) (hr : s.svcs[i]? = some r)
      (ht : r.task = .waiting) (hcan : s.cancelled = true) :
      Step cfg s { s with svcs := s.svcs.set i { r with task := .exitedEarly } }
  | taskFinish (s : OState) (i : Nat) (r : SvcRt) (hr : s.svcs[i]? = some r)
      (ht : r.task = .running) :
      Step cfg s { s with svcs := s.svcs.set i { r with task := .exited, closes := r.closes + (if r.reporter then 1 else 0) } }
  | envCancel (s : OState) : Step cfg s { s with cancelled := true }

/-- The states one `Voltron.Run` call can pass through. -/
def Reachable (cfg : Config) (s : OState) : Prop :=
  Relation.ReflTransGen (Step cfg) (startState cfg) s

/-- Keepalive/Close count a reporting service accumulates: 1 when a reporter
is attached, else 0. -/
def rep1 (r : SvcRt) : Nat := if r.reporter then 1 else 0

/-- Per-task invariant, relating a service record to its task state.  `can`
and `sig` are the current `cancelled` and `signalClosed` flags. -/
def TaskOk (can sig : Bool) (sp : SvcSpec) (r : SvcRt) : Prop :=
  (r.task = .notSpawned → r.keeps = 0 ∧ r.closes = 0 ∧ r.runs = 0) ∧
  (r.task = .waiting → r.inits = 1 ∧ r.keeps = 0 ∧ r.closes = 0 ∧ r.runs = 0 ∧
    r.reporter = wantsReport sp ∧ sp.initRes = none) ∧
  (r.task = .exitedEarly → r.inits = 1 ∧ r.keeps = 0 ∧ r.closes = 0 ∧
    r.runs = 0 ∧ r.reporter = wantsReport sp ∧ sp.initRes = none ∧ can = true) ∧
  (r.task = .running → r.inits = 1 ∧ r.keeps = rep1 r ∧ r.closes = 0 ∧
    r.runs = 1 ∧ r.reporter = wantsReport sp ∧ sp.initRes = none ∧ sig = true) ∧
  (r.task = .exited → r.inits = 1 ∧ r.keeps = rep1 r ∧ r.closes = rep1 r ∧
    r.runs = 1 ∧ r.reporter = wantsReport sp ∧ sp.initRes = none ∧ sig = true)

theorem TaskOk_fresh (can sig : Bool) (sp : SvcSpec) :
    TaskOk can sig sp SvcRt.fresh := by
  refine ⟨fun _ => ⟨rfl, rfl, rfl⟩, fun h => ?_, fun h => ?_, fun h => ?_, fun h => ?_⟩ <;> exact nomatch h

theorem TaskOk_mono {can sig can2 sig2 : Bool} {sp : SvcSpec} {r : SvcRt}
    (h : TaskOk can sig sp r) (hc : can = true → can2 = true)
    (hs : sig = true → sig2 = true) : TaskOk can2 sig2 sp r := by
  obtain ⟨h1, h2, h3, h4, h5⟩ := h
  refine ⟨h1, h2, fun ht => ?_, fun ht => ?_, fun ht => ?_⟩
  · obtain ⟨a, b, c, d, e, f, g⟩ := h3 ht
    exact ⟨a, b, c, d, e, f, hc g⟩
  · obtain ⟨a, b, c, d, e, f, g⟩ := h4 ht
    exact ⟨a, b, c, d, e, f, hs g⟩
  · obtain ⟨a, b, c, d, e, f, g⟩ := h5 ht
    exact ⟨a, b, c, d, e, f, hs g⟩

/-- Control-point-specific part of the global invariant. -/
def PcCase (cfg : Config) (s : OState) : Pc → Prop
  | .start =>
      s.initCalls = [] ∧ s.appended = [] ∧ s.shutdownCalls = [] ∧
      s.svcs = freshList cfg ∧ s.signalClosed = false ∧ s.gogoCount = 0 ∧
      s.initDone = false
  | .initLoop i =>
      cfg.hasCluster = true ∧ i ≤ cfg.clients.length ∧
      s.initCalls = List.range i ∧ s.appended = List.range i ∧
      (∀ (j : Nat) (ck : ClientKind), j < i → cfg.clients[j]? = some ck → clientRes ck = none) ∧
      s.shutdownCalls = [] ∧ s.svcs = freshList cfg ∧
      s.signalClosed = false ∧ s.gogoCount = 0 ∧ s.initDone = false
  | .prepLoop i =>
      cfg.hasCluster = true ∧ s.initDone = true ∧
      s.initCalls = List.range cfg.clients.length ∧
      s.appended = List.range cfg.clients.length ∧
      s.shutdownCalls = [] ∧ i ≤ cfg.services.length ∧
      (∀ (j : Nat) (sp : SvcSpec), j < i → cfg.services[j]? = some sp → sp.initRes = none) ∧
      (∀ (j : Nat) (r : SvcRt), s.svcs[j]? = some r →
        (j < i → r.task ≠ .notSpawned) ∧ (i ≤ j → r = SvcRt.fresh)) ∧
      s.signalClosed = false ∧ s.gogoCount = 0
  | .gogo =>
      cfg.hasCluster = true ∧ s.initDone = true ∧
      s.initCalls = List.range cfg.clients.length ∧
      s.appended = List.range cfg.clients.length ∧
      s.shutdownCalls = [] ∧
      (∀ (j : Nat) (sp : SvcSpec), cfg.services[j]? = some sp → sp.initRes = none) ∧
      (∀ (j : Nat) (r : SvcRt), s.svcs[j]? = some r → r.task ≠ .notSpawned) ∧
      s.signalClosed = false ∧ s.gogoCount = 0
  | .waitTasks =>
      s.initDone = true ∧
      s.initCalls = List.range cfg.clients.length ∧
      s.appended = List.range cfg.clients.length ∧
      s.shutdownCalls = [] ∧ s.signalClosed = true
  | .shutdownLoop i _ =>
      s.initDone = true ∧
      s.initCalls = List.range cfg.clients.length ∧
      s.appended = List.range cfg.clients.length ∧
      i ≤ cfg.clients.length ∧ s.shutdownCalls = List.range i
  | .done res =>
      (s.initDone = true → s.shutdownCalls = List.range cfg.clients.length) ∧
      (s.initDone = false → s.shutdownCalls = [] ∧ s.svcs = freshList cfg ∧
        s.signalClosed = false ∧ s.gogoCount = 0 ∧
        ((cfg.hasCluster = false ∧ res = some .invalidCluster ∧
            s.initCalls = []) ∨
         (cfg.hasCluster = true ∧ ∃ (i : Nat) (ck : ClientKind) (e : String), cfg.clients[i]? = some ck ∧
            clientRes ck = some e ∧ res = some (.other e) ∧
            (∀ (j : Nat) (ck2 : ClientKind), j < i → cfg.clients[j]? = some ck2 →
              clientRes ck2 = none) ∧
            (s.initCalls = List.range i ∨ s.initCalls = List.range (i + 1)))))

/-- The inductive invariant of the transition system. -/
def Inv (cfg : Config) (s : OState) : Prop :=
  s.svcs.length = cfg.services.length ∧
  (∀ (j : Nat) (sp : SvcSpec) (r : SvcRt), cfg.services[j]? = some sp → s.svcs[j]? = some r →
    TaskOk s.cancelled s.signalClosed sp r) ∧
  (s.signalClosed = true ↔ s.gogoCount = 1) ∧
  s.gogoCount ≤ 1 ∧
  (s.signalClosed = true → s.initDone = true ∧
    s.initCalls = List.range cfg.clients.length ∧
    (∀ (j : Nat) (r : SvcRt), s.svcs[j]? = some r → r.task ≠ .notSpawned)) ∧
  (∃ k, k ≤ cfg.clients.length ∧ s.initCalls = List.range k) ∧
  (s.initDone = true → ∀ (j : Nat) (ck : ClientKind), cfg.clients[j]? = some ck →
    clientRes ck = none) ∧
  (s.initDone = true → cfg.hasCluster = true) ∧
  PcCase cfg s s.pc

theorem freshList_get {cfg : Config} {j : Nat} {r : SvcRt}
    (h : (freshList cfg)[j]? = some r) : r = SvcRt.fresh := by
  unfold freshList at h
  rw [List.getElem?_map] at h
  cases hj : cfg.services[j]? with
  | none => rw [hj] at h; simp at h
  | some sp => rw [hj] at h; simp at h; exact h.symm

theorem inv_start (cfg : Config) : Inv cfg (startState cfg) := by
  refine ⟨List.length_map _ _, ?_, by simp [startState], by simp [startState],
    ?_, ⟨0, Nat.zero_le _, rfl⟩, ?_, ?_, ?_⟩
  · intro j sp r hsp hr
    have : r = SvcRt.fresh := freshList_get hr
    subst this
    exact TaskOk_fresh _ _ _
  · intro h
    exact nomatch h
  · intro h
    exact nomatch h
  · intro h
    exact nomatch h
  · exact ⟨rfl, rfl, rfl, rfl, rfl, rfl, rfl⟩

theorem bool_ff_ne_tt {C : Prop} (h : (false : Bool) = true) : C := nomatch h

theorem getElem?_lt_length {α : Type} {l : List α} {i : Nat} {a : α}
    (h : l[i]? = some a) : i < l.length := by
  rcases Nat.lt_or_ge i l.length with h2 | h2
  · exact h2
  · rw [List.getElem?_eq_none h2] at h
    cases h

theorem inv_clusterMissing {cfg : Config} {s : OState} (hInv : Inv cfg s)
    (hpc : s.pc = .start) (hc : cfg.hasCluster = false) :
    Inv cfg { s with pc := .done (some .invalidCluster) } := by
  obtain ⟨hlen, htask, hsg, hg1, hsig, hrange, hid1, hid2, hpcc⟩ := hInv
  rw [hpc] at hpcc
  obtain ⟨hic, hap, hsd, hsv, hscl, hgc, hidf⟩ := hpcc
  refine ⟨hlen, htask, hsg, hg1, hsig, hrange, hid1, hid2, ?_⟩
  refine ⟨fun h => absurd (hidf ▸ h) (by exact bool_ff_ne_tt), fun _ => ?_⟩
  exact ⟨hsd, hsv, hscl, hgc, Or.inl ⟨hc, rfl, hic⟩⟩

theorem inv_clusterOk {cfg : Config} {s : OState} (hInv : Inv cfg s)
    (hpc : s.pc = .start) (hc : cfg.hasCluster = true) :
    Inv cfg { s with pc := .initLoop 0 } := by
  obtain ⟨hlen, htask, hsg, hg1, hsig, hrange, hid1, hid2, hpcc⟩ := hInv
  rw [hpc] at hpcc
  obtain ⟨hic, hap, hsd, hsv, hscl, hgc, hidf⟩ := hpcc
  refine ⟨hlen, htask, hsg, hg1, hsig, hrange, hid1, hid2, ?_⟩
  exact ⟨hc, Nat.zero_le _, hic.trans List.range_zero.symm,
    hap.trans List.range_zero.symm,
    fun j ck hj _ => absurd hj (Nat.not_lt_zero j), hsd, hsv, hscl, hgc, hidf⟩

theorem inv_initBrokerFail {cfg : Config} {s : OState} {i : Nat} {b : String}
    {e : Option String} (hInv : Inv cfg s) (hpc : s.pc = .initLoop i)
    (hck : cfg.clients[i]? = some (.discovery (some b) e)) :
    Inv cfg { s with pc := .done (some (.other b)) } := by
  obtain ⟨hlen, htask, hsg, hg1, hsig, hrange, hid1, hid2, hpcc⟩ := hInv
  rw [hpc] at hpcc
  obtain ⟨hcl, hile, hic, hap, hjlt, hsd, hsv, hscl, hgc, hidf⟩ := hpcc
  refine ⟨hlen, htask, hsg, hg1, hsig, hrange, hid1, hid2, ?_⟩
  refine ⟨fun h => absurd (hidf ▸ h) (by exact bool_ff_ne_tt), fun _ => ?_⟩
  refine ⟨hsd, hsv, hscl, hgc, Or.inr ⟨hcl, i, .discovery (some b) e, b, hck,
    rfl, rfl, hjlt, Or.inl hic⟩⟩

theorem inv_initImplFail {cfg : Config} {s : OState} {i : Nat}
    {ck : ClientKind} {e : String} (hInv : Inv cfg s)
    (hpc : s.pc = .initLoop i) (hck : cfg.clients[i]? = some ck)
    (hres : clientRes ck = some e) :
    Inv cfg { s with initCalls := s.initCalls ++ [i],
                     pc := .done (some (.other e)) } := by
  obtain ⟨hlen, htask, hsg, hg1, hsig, hrange, hid1, hid2, hpcc⟩ := hInv
  rw [hpc] at hpcc
  obtain ⟨hcl, hile, hic, hap, hjlt, hsd, hsv, hscl, hgc, hidf⟩ := hpcc
  have hilt : i < cfg.clients.length := getElem?_lt_length hck
  have hic2 : s.initCalls ++ [i] = List.range (i + 1) := by
    rw [hic, List.range_succ]
  refine ⟨hlen, htask, hsg, hg1, ?_, ⟨i + 1, hilt, hic2⟩, hid1, hid2, ?_⟩
  · intro hcon
    exact absurd (hscl ▸ hcon) (by exact bool_ff_ne_tt)
  · refine ⟨fun h => absurd (hidf ▸ h) (by exact bool_ff_ne_tt), fun _ => ?_⟩
    exact ⟨hsd, hsv, hscl, hgc, Or.inr ⟨hcl, i, ck, e, hck, hres, rfl, hjlt,
      Or.inr hic2⟩⟩

theorem inv_initOk {cfg : Config} {s : OState} {i : Nat} {ck : ClientKind}
    (hInv : Inv cfg s) (hpc : s.pc = .initLoop i)
    (hck : cfg.clients[i]? = some ck) (hres : clientRes ck = none) :
    Inv cfg { s with initCalls := s.initCalls ++ [i],
                     appended := s.appended ++ [i],
                     pc := .initLoop (i + 1) } := by
  obtain ⟨hlen, htask, hsg, hg1, hsig, hrange, hid1, hid2, hpcc⟩ := hInv
  rw [hpc] at hpcc
  obtain ⟨hcl, hile, hic, hap, hjlt, hsd, hsv, hscl, hgc, hidf⟩ := hpcc
  have hilt : i < cfg.clients.length := getElem?_lt_length hck
  have hic2 : s.initCalls ++ [i] = List.range (i + 1) := by
    rw [hic, List.range_succ]
  have hap2 : s.appended ++ [i] = List.range (i + 1) := by
    rw [hap, List.range_succ]
  refine ⟨hlen, htask, hsg, hg1, ?_, ⟨i + 1, hilt, hic2⟩, hid1, hid2, ?_⟩
  · intro hcon
    exact absurd (hscl ▸ hcon) (by exact bool_ff_ne_tt)
  · refine ⟨hcl, hilt, hic2, hap2, ?_, hsd, hsv, hscl, hgc, hidf⟩
    intro j ck2 hj hck2
    rcases Nat.lt_or_ge j i with hji | hji
    · exact hjlt j ck2 hji hck2
    · have : j = i := Nat.le_antisymm (Nat.lt_succ_iff.mp hj) hji
      subst this
      rw [hck] at hck2
      cases hck2
      exact hres

theorem inv_initLoopDone {cfg : Config} {s : OState} {i : Nat}
    (hInv : Inv cfg s) (hpc : s.pc = .initLoop i)
    (hck : cfg.clients[i]? = none) :
    Inv cfg { s with initDone := true, pc := .prepLoop 0 } := by
  obtain ⟨hlen, htask, hsg, hg1, hsig, hrange, hid1, hid2, hpcc⟩ := hInv
  rw [hpc] at hpcc
  obtain ⟨hcl, hile, hic, hap, hjlt, hsd, hsv, hscl, hgc, hidf⟩ := hpcc
  have hin : i = cfg.clients.length :=
    Nat.le_antisymm hile (List.getElem?_eq_none_iff.mp hck)
  subst hin
  have hall : ∀ (j : Nat) (ck : ClientKind), cfg.clients[j]? = some ck →
      clientRes ck = none := by
    intro j ck hj
    exact hjlt j ck (getElem?_lt_length hj) hj
  refine ⟨hlen, htask, hsg, hg1, ?_, hrange, fun _ => hall, fun _ => hcl, ?_⟩
  · intro hcon
    exact absurd (hscl ▸ hcon) (by exact bool_ff_ne_tt)
  · refine ⟨hcl, rfl, hic, hap, hsd, Nat.zero_le _,
      fun j sp hj _ => absurd hj (Nat.not_lt_zero j), ?_, hscl, hgc⟩
    intro j r hr
    rw [hsv] at hr
    exact ⟨fun hj => absurd hj (Nat.not_lt_zero j),
      fun _ => freshList_get hr⟩

theorem inv_prepFail {cfg : Config} {s : OState} {i : Nat} {sp : SvcSpec}
    {e : String} (hInv : Inv cfg s) (hpc : s.pc = .prepLoop i)
    (hsp : cfg.services[i]? = some sp) (_hres : sp.initRes = some e) :
    Inv cfg { s with
      svcs := s.svcs.set i
        { SvcRt.fresh with reporter := wantsReport sp, inits := 1 },
      cancelled := true,
      pc := .shutdownLoop 0 (some (.other e)) } := by
  obtain ⟨hlen, htask, hsg, hg1, hsig, hrange, hid1, hid2, hpcc⟩ := hInv
  rw [hpc] at hpcc
  obtain ⟨hcl, hidone, hic, hap, hsd, hile, hjlt, hsv, hscl, hgc⟩ := hpcc
  have hilt : i < s.svcs.length := by
    rw [hlen]
    exact getElem?_lt_length hsp
  refine ⟨by rw [List.length_set]; exact hlen, ?_, hsg, hg1, ?_, hrange,
    hid1, hid2, ?_⟩
  · intro j sp2 r2 hsp2 hr2
    by_cases hj : i = j
    · subst hj
      rw [List.getElem?_set_self hilt] at hr2
      cases hr2
      refine ⟨fun _ => ⟨rfl, rfl, rfl⟩, fun h => ?_, fun h => ?_,
        fun h => ?_, fun h => ?_⟩
      all_goals exact nomatch h
    · rw [List.getElem?_set_ne hj] at hr2
      exact TaskOk_mono (htask j sp2 r2 hsp2 hr2) (fun _ => rfl) (fun h => h)
  · intro hcon
    exact absurd (hscl ▸ hcon) (by exact bool_ff_ne_tt)
  · exact ⟨hidone, hic, hap, Nat.zero_le _, hsd.trans List.range_zero.symm⟩

theorem inv_prepOk {cfg : Config} {s : OState} {i : Nat} {sp : SvcSpec}
    (hInv : Inv cfg s) (hpc : s.pc = .prepLoop i)
    (hsp : cfg.services[i]? = some sp) (hres : sp.initRes = none) :
    Inv cfg { s with
      svcs := s.svcs.set i ⟨.waiting, wantsReport sp, 1, 0, 0, 0⟩,
      pc := .prepLoop (i + 1) } := by
  obtain ⟨hlen, htask, hsg, hg1, hsig, hrange, hid1, hid2, hpcc⟩ := hInv
  rw [hpc] at hpcc
  obtain ⟨hcl, hidone, hic, hap, hsd, hile, hjlt, hsv, hscl, hgc⟩ := hpcc
  have hiltm : i < cfg.services.length := getElem?_lt_length hsp
  have hilt : i < s.svcs.length := by
    rw [hlen]
    exact hiltm
  refine ⟨by rw [List.length_set]; exact hlen, ?_, hsg, hg1, ?_, hrange,
    hid1, hid2, ?_⟩
  · intro j sp2 r2 hsp2 hr2
    by_cases hj : i = j
    · subst hj
      rw [List.getElem?_set_self hilt] at hr2
      cases hr2
      rw [hsp] at hsp2
      cases hsp2
      refine ⟨fun h => ?_, fun _ => ⟨rfl, rfl, rfl, rfl, rfl, hres⟩,
        fun h => ?_, fun h => ?_, fun h => ?_⟩
      all_goals exact nomatch h
    · rw [List.getElem?_set_ne hj] at hr2
      exact htask j sp2 r2 hsp2 hr2
  · intro hcon
    exact absurd (hscl ▸ hcon) (by exact bool_ff_ne_tt)
  · refine ⟨hcl, hidone, hic, hap, hsd, hiltm, ?_, ?_, hscl, hgc⟩
    · intro j sp2 hj hsp2
      rcases Nat.lt_or_ge j i with hji | hji
      · exact hjlt j sp2 hji hsp2
      · have : j = i := Nat.le_antisymm (Nat.lt_succ_iff.mp hj) hji
        subst this
        rw [hsp] at hsp2
        cases hsp2
        exact hres
    · intro j r hr
      by_cases hj : i = j
      · subst hj
        rw [List.getElem?_set_self hilt] at hr
        cases hr
        constructor
        · intro _ hcon
          exact nomatch hcon
        · intro hij
          exact absurd hij (Nat.not_succ_le_self i)
      · rw [List.getElem?_set_ne hj] at hr
        have hold := hsv j r hr
        constructor
        · intro hji
          have hji2 : j < i := by
            rcases Nat.lt_or_ge j i with h2 | h2
            · exact h2
            · exact absurd (Nat.le_antisymm (Nat.lt_succ_iff.mp hji) h2).symm hj
          exact hold.1 hji2
        · intro hij
          exact hold.2 (Nat.le_of_succ_le hij)

theorem inv_prepLoopDone {cfg : Config} {s : OState} {i : Nat}
    (hInv : Inv cfg s) (hpc : s.pc = .prepLoop i)
    (hsp : cfg.services[i]? = none) :
    Inv cfg { s with pc := .gogo } := by
  obtain ⟨hlen, htask, hsg, hg1, hsig, hrange, hid1, hid2, hpcc⟩ := hInv
  rw [hpc] at hpcc
  obtain ⟨hcl, hidone, hic, hap, hsd, hile, hjlt, hsv, hscl, hgc⟩ := hpcc
  have hin : i = cfg.services.length :=
    Nat.le_antisymm hile (List.getElem?_eq_none_iff.mp hsp)
  subst hin
  refine ⟨hlen, htask, hsg, hg1, hsig, hrange, hid1, hid2, ?_⟩
  refine ⟨hcl, hidone, hic, hap, hsd, ?_, ?_, hscl, hgc⟩
  · intro j sp hj
    exact hjlt j sp (getElem?_lt_length hj) hj
  · intro j r hr
    have hjl : j < s.svcs.length := getElem?_lt_length hr
    rw [hlen] at hjl
    exact (hsv j r hr).1 hjl

theorem inv_gogoStep {cfg : Config} {s : OState} (hInv : Inv cfg s)
    (hpc : s.pc = .gogo) :
    Inv cfg { s with signalClosed := true, gogoCount := s.gogoCount + 1,
                     pc := .waitTasks } := by
  obtain ⟨hlen, htask, hsg, hg1, hsig, hrange, hid1, hid2, hpcc⟩ := hInv
  rw [hpc] at hpcc
  obtain ⟨hcl, hidone, hic, hap, hsd, hjin, hspawn, hscl, hgc⟩ := hpcc
  refine ⟨hlen, ?_, ?_, ?_, ?_, hrange, hid1, hid2, ?_⟩
  · intro j sp r hsp hr
    exact TaskOk_mono (htask j sp r hsp hr) (fun h => h) (fun _ => rfl)
  · constructor
    · intro _
      rw [hgc]
    · intro _
      rfl
  · rw [hgc]
  · intro _
    exact ⟨hidone, hic, hspawn⟩
  · exact ⟨hidone, hic, hap, hsd, rfl⟩

theorem inv_waitAllDone {cfg : Config} {s : OState} (hInv : Inv cfg s)
    (hpc : s.pc = .waitTasks) :
    Inv cfg { s with cancelled := true, pc := .shutdownLoop 0 none } := by
  obtain ⟨hlen, htask, hsg, hg1, hsigc, hrange, hid1, hid2, hpcc⟩ := hInv
  rw [hpc] at hpcc
  obtain ⟨hidone, hic, hap, hsd, hscl⟩ := hpcc
  refine ⟨hlen, ?_, hsg, hg1, hsigc, hrange, hid1, hid2, ?_⟩
  · intro j sp r hsp hr
    exact TaskOk_mono (htask j sp r hsp hr) (fun _ => rfl) (fun h => h)
  · exact ⟨hidone, hic, hap, Nat.zero_le _, hsd.trans List.range_zero.symm⟩

theorem inv_shutdownNext {cfg : Config} {s : OState} {i c : Nat}
    {p : Option RunError} (hInv : Inv cfg s)
    (hpc : s.pc = .shutdownLoop i p) (hc : s.appended[i]? = some c) :
    Inv cfg { s with shutdownCalls := s.shutdownCalls ++ [c],
                     pc := .shutdownLoop (i + 1) p } := by
  obtain ⟨hlen, htask, hsg, hg1, hsigc, hrange, hid1, hid2, hpcc⟩ := hInv
  rw [hpc] at hpcc
  obtain ⟨hidone, hic, hap, hile, hsd⟩ := hpcc
  rw [hap] at hc
  have hilt : i < cfg.clients.length := by
    have := getElem?_lt_length hc
    rwa [List.length_range] at this
  have hci : c = i := by
    rw [List.getElem?_range hilt] at hc
    cases hc
    rfl
  subst hci
  refine ⟨hlen, htask, hsg, hg1, hsigc, hrange, hid1, hid2, ?_⟩
  refine ⟨hidone, hic, hap, hilt, ?_⟩
  rw [hsd, List.range_succ]

theorem inv_shutdownFinished {cfg : Config} {s : OState} {i : Nat}
    {p : Option RunError} (hInv : Inv cfg s)
    (hpc : s.pc = .shutdownLoop i p) (hc : s.appended[i]? = none) :
    Inv cfg { s with pc := .done p } := by
  obtain ⟨hlen, htask, hsg, hg1, hsigc, hrange, hid1, hid2, hpcc⟩ := hInv
  rw [hpc] at hpcc
  obtain ⟨hidone, hic, hap, hile, hsd⟩ := hpcc
  rw [hap] at hc
  have hin : i = cfg.clients.length := by
    have := List.getElem?_eq_none_iff.mp hc
    rw [List.length_range] at this
    exact Nat.le_antisymm hile this
  subst hin
  refine ⟨hlen, htask, hsg, hg1, hsigc, hrange, hid1, hid2, ?_⟩
  refine ⟨fun _ => hsd, fun hf => ?_⟩
  rw [hidone] at hf
  exact nomatch hf

theorem all_spawned_update {svcs : List SvcRt} {i : Nat} {r2 : SvcRt}
    (hall : ∀ (j : Nat) (r : SvcRt), svcs[j]? = some r → r.task ≠ .notSpawned)
    (h2 : r2.task ≠ .notSpawned) :
    ∀ (j : Nat) (r : SvcRt), (svcs.set i r2)[j]? = some r →
      r.task ≠ .notSpawned := by
  intro j r hj
  rw [List.getElem?_set] at hj
  by_cases hij : i = j
  · rw [if_pos hij] at hj
    by_cases hlt : i < svcs.length
    · rw [if_pos hlt] at hj
      cases hj
      exact h2
    · rw [if_neg hlt] at hj
      cases hj
  · rw [if_neg hij] at hj
    exact hall j r hj

theorem PcCase_svcs_update {cfg : Config} {s : OState} {i : Nat} {r r2 : SvcRt}
    (hpcc : PcCase cfg s s.pc) (hr : s.svcs[i]? = some r)
    (hsp1 : r.task ≠ .notSpawned) (hsp2 : r2.task ≠ .notSpawned) :
    PcCase cfg { s with svcs := s.svcs.set i r2 } s.pc := by
  have hilt : i < s.svcs.length := getElem?_lt_length hr
  cases hp : s.pc with
  | start =>
    rw [hp] at hpcc
    obtain ⟨_, _, _, hsv, _⟩ := hpcc
    have hfr : r = SvcRt.fresh := freshList_get (by rw [← hsv]; exact hr)
    exact (hsp1 (by rw [hfr]; rfl)).elim
  | initLoop i2 =>
    rw [hp] at hpcc
    obtain ⟨_, _, _, _, _, _, hsv, _⟩ := hpcc
    have hfr : r = SvcRt.fresh := freshList_get (by rw [← hsv]; exact hr)
    exact (hsp1 (by rw [hfr]; rfl)).elim
  | prepLoop i2 =>
    rw [hp] at hpcc
    obtain ⟨hcl, hidone, hic, hap, hsd, hile, hjlt, hsv, hscl, hgc⟩ := hpcc
    refine ⟨hcl, hidone, hic, hap, hsd, hile, hjlt, ?_, hscl, hgc⟩
    intro j r3 hj
    rw [List.getElem?_set] at hj
    by_cases hij : i = j
    · rw [if_pos hij, if_pos hilt] at hj
      cases hj
      subst hij
      constructor
      · intro _
        exact hsp2
      · intro hij2
        exact (hsp1 (by rw [(hsv i r hr).2 hij2]; rfl)).elim
    · rw [if_neg hij] at hj
      exact hsv j r3 hj
  | gogo =>
    rw [hp] at hpcc
    obtain ⟨hcl, hidone, hic, hap, hsd, hjin, hspawn, hscl, hgc⟩ := hpcc
    exact ⟨hcl, hidone, hic, hap, hsd, hjin,
      all_spawned_update hspawn hsp2, hscl, hgc⟩
  | waitTasks =>
    rw [hp] at hpcc
    exact hpcc
  | shutdownLoop i2 p =>
    rw [hp] at hpcc
    exact hpcc
  | done res =>
    rw [hp] at hpcc
    obtain ⟨hd1, hd2⟩ := hpcc
    refine ⟨hd1, fun hf => ?_⟩
    obtain ⟨hsd, hsv, hscl, hgc, hrest⟩ := hd2 hf
    have hfr : r = SvcRt.fresh := freshList_get (by rw [← hsv]; exact hr)
    exact (hsp1 (by rw [hfr]; rfl)).elim

theorem inv_taskGo {cfg : Config} {s : OState} {i : Nat} {r : SvcRt}
    (hInv : Inv cfg s) (hr : s.svcs[i]? = some r) (ht : r.task = .waiting)
    (hsig : s.signalClosed = true) :
    Inv cfg { s with svcs := s.svcs.set i { r with task := .running, keeps := r.keeps + (if r.reporter then 1 else 0), runs := r.runs + 1 } } := by
  obtain ⟨hlen, htask, hsg, hg1, hsigc, hrange, hid1, hid2, hpcc⟩ := hInv
  have hilt : i < s.svcs.length := getElem?_lt_length hr
  have hsp1 : r.task ≠ .notSpawned := by
    rw [ht]
    exact fun h => nomatch h
  refine ⟨by rw [List.length_set]; exact hlen, ?_, hsg, hg1, ?_, hrange,
    hid1, hid2, ?_⟩
  · intro j sp2 r2 hsp2 hr2
    by_cases hij : i = j
    · subst hij
      rw [List.getElem?_set_self hilt] at hr2
      cases hr2
      obtain ⟨hin1, hk0, hc0, hr0, hrep, hires⟩ :=
        (htask i sp2 r hsp2 hr).2.1 ht
      refine ⟨fun h => ?_, fun h => ?_, fun h => ?_, fun _ => ?_, fun h => ?_⟩
      · exact nomatch h
      · exact nomatch h
      · exact nomatch h
      · refine ⟨hin1, ?_, hc0, ?_, hrep, hires, hsig⟩
        · show r.keeps + (if r.reporter then 1 else 0) =
            (if r.reporter then 1 else 0)
          rw [hk0]
          exact Nat.zero_add _
        · show r.runs + 1 = 1
          rw [hr0]
      · exact nomatch h
    · rw [List.getElem?_set_ne hij] at hr2
      exact htask j sp2 r2 hsp2 hr2
  · intro hcon
    obtain ⟨ha, hb, hc⟩ := hsigc hcon
    refine ⟨ha, hb, all_spawned_update hc ?_⟩
    exact fun h => nomatch h
  · exact PcCase_svcs_update hpcc hr hsp1 (fun h => nomatch h)

theorem inv_taskCancelExit {cfg : Config} {s : OState} {i : Nat} {r : SvcRt}
    (hInv : Inv cfg s) (hr : s.svcs[i]? = some r) (ht : r.task = .waiting)
    (hcan : s.cancelled = true) :
    Inv cfg { s with svcs := s.svcs.set i { r with task := .exitedEarly } } := by
  obtain ⟨hlen, htask, hsg, hg1, hsigc, hrange, hid1, hid2, hpcc⟩ := hInv
  have hilt : i < s.svcs.length := getElem?_lt_length hr
  have hsp1 : r.task ≠ .notSpawned := by
    rw [ht]
    exact fun h => nomatch h
  refine ⟨by rw [List.length_set]; exact hlen, ?_, hsg, hg1, ?_, hrange,
    hid1, hid2, ?_⟩
  · intro j sp2 r2 hsp2 hr2
    by_cases hij : i = j
    · subst hij
      rw [List.getElem?_set_self hilt] at hr2
      cases hr2
      obtain ⟨hin1, hk0, hc0, hr0, hrep, hires⟩ :=
        (htask i sp2 r hsp2 hr).2.1 ht
      refine ⟨fun h => ?_, fun h => ?_, fun _ => ?_, fun h => ?_, fun h => ?_⟩
      · exact nomatch h
      · exact nomatch h
      · exact ⟨hin1, hk0, hc0, hr0, hrep, hires, hcan⟩
      · exact nomatch h
      · exact nomatch h
    · rw [List.getElem?_set_ne hij] at hr2
      exact htask j sp2 r2 hsp2 hr2
  · intro hcon
    obtain ⟨ha, hb, hc⟩ := hsigc hcon
    refine ⟨ha, hb, all_spawned_update hc ?_⟩
    exact fun h => nomatch h
  · exact PcCase_svcs_update hpcc hr hsp1 (fun h => nomatch h)

theorem inv_taskFinish {cfg : Config} {s : OState} {i : Nat} {r : SvcRt}
    (hInv : Inv cfg s) (hr : s.svcs[i]? = some r) (ht : r.task = .running) :
    Inv cfg { s with svcs := s.svcs.set i { r with task := .exited, closes := r.closes + (if r.reporter then 1 else 0) } } := by
  obtain ⟨hlen, htask, hsg, hg1, hsigc, hrange, hid1, hid2, hpcc⟩ := hInv
  have hilt : i < s.svcs.length := getElem?_lt_length hr
  have hsp1 : r.task ≠ .notSpawned := by
    rw [ht]
    exact fun h => nomatch h
  refine ⟨by rw [List.length_set]; exact hlen, ?_, hsg, hg1, ?_, hrange,
    hid1, hid2, ?_⟩
  · intro j sp2 r2 hsp2 hr2
    by_cases hij : i = j
    · subst hij
      rw [List.getElem?_set_self hilt] at hr2
      cases hr2
      obtain ⟨hin1, hkrep, hc0, hr1, hrep, hires, hsigT⟩ :=
        (htask i sp2 r hsp2 hr).2.2.2.1 ht
      refine ⟨fun h => ?_, fun h => ?_, fun h => ?_, fun h => ?_, fun _ => ?_⟩
      · exact nomatch h
      · exact nomatch h
      · exact nomatch h
      · exact nomatch h
      · refine ⟨hin1, hkrep, ?_, hr1, hrep, hires, hsigT⟩
        show r.closes + (if r.reporter then 1 else 0) =
          (if r.reporter then 1 else 0)
        rw [hc0]
        exact Nat.zero_add _
    · rw [List.getElem?_set_ne hij] at hr2
      exact htask j sp2 r2 hsp2 hr2
  · intro hcon
    obtain ⟨ha, hb, hc⟩ := hsigc hcon
    refine ⟨ha, hb, all_spawned_update hc ?_⟩
    exact fun h => nomatch h
  · exact PcCase_svcs_update hpcc hr hsp1 (fun h => nomatch h)

theorem inv_envCancel {cfg : Config} {s : OState} (hInv : Inv cfg s) :
    Inv cfg { s with cancelled := true } := by
  obtain ⟨hlen, htask, hsg, hg1, hsigc, hrange, hid1, hid2, hpcc⟩ := hInv
  refine ⟨hlen, ?_, hsg, hg1, hsigc, hrange, hid1, hid2, ?_⟩
  · intro j sp r hsp hr
    exact TaskOk_mono (htask j sp r hsp hr) (fun _ => rfl) (fun h => h)
  · show PcCase cfg { s with cancelled := true } s.pc
    cases hp : s.pc with
    | start =>
      rw [hp] at hpcc
      exact hpcc
    | initLoop i =>
      rw [hp] at hpcc
      exact hpcc
    | prepLoop i =>
      rw [hp] at hpcc
      exact hpcc
    | gogo =>
      rw [hp] at hpcc
      exact hpcc
    | waitTasks =>
      rw [hp] at hpcc
      exact hpcc
    | shutdownLoop i p =>
      rw [hp] at hpcc
      exact hpcc
    | done res =>
      rw [hp] at hpcc
      exact hpcc

/-- Every step of the system preserves the invariant. -/
theorem inv_step {cfg : Config} {s s2 : OState} (hInv : Inv cfg s)
    (hstep : Step cfg s s2) : Inv cfg s2 := by
  cases hstep with
  | clusterMissing hpc hc => exact inv_clusterMissing hInv hpc hc
  | clusterOk hpc hc => exact inv_clusterOk hInv hpc hc
  | initBrokerFail i b e hpc hck => exact inv_initBrokerFail hInv hpc hck
  | initImplFail i ck e hpc hck hcall hres =>
    exact inv_initImplFail hInv hpc hck hres
  | initOk i ck hpc hck hres => exact inv_initOk hInv hpc hck hres
  | initLoopDone i hpc hck => exact inv_initLoopDone hInv hpc hck
  | prepFail i sp e hpc hsp hres => exact inv_prepFail hInv hpc hsp hres
  | prepOk i sp hpc hsp hres => exact inv_prepOk hInv hpc hsp hres
  | prepLoopDone i hpc hsp => exact inv_prepLoopDone hInv hpc hsp
  | gogoStep hpc => exact inv_gogoStep hInv hpc
  | waitAllDone hpc hall => exact inv_waitAllDone hInv hpc
  | shutdownNext i c p hpc hc => exact inv_shutdownNext hInv hpc hc
  | shutdownFinished i p hpc hc => exact inv_shutdownFinished hInv hpc hc
  | taskGo i r hr ht hsig => exact inv_taskGo hInv hr ht hsig
  | taskCancelExit i r hr ht hcan => exact inv_taskCancelExit hInv hr ht hcan
  | taskFinish i r hr ht => exact inv_taskFinish hInv hr ht
  | envCancel => exact inv_envCancel hInv

/-- Every reachable state satisfies the invariant. -/
theorem inv_reachable {cfg : Config} {s : OState} (h : Reachable cfg s) :
    Inv cfg s := by
  induction h with
  | refl => exact inv_start cfg
  | tail hab hbc ih => exact inv_step ih hbc

theorem getElem?_is_some_of_lt {α : Type} {l : List α} {i : Nat}
    (h : i < l.length) : ∃ a, l[i]? = some a := by
  cases hx : l[i]? with
  | none => exact absurd (List.getElem?_eq_none_iff.mp hx) (Nat.not_le_of_lt h)
  | some a => exact ⟨a, rfl⟩

theorem TaskOk_spawned_inits {can sig : Bool} {sp : SvcSpec} {q : SvcRt}
    (h : TaskOk can sig sp q) (hsp : q.task ≠ .notSpawned) :
    q.inits = 1 ∧ sp.initRes = none := by
  cases htk : q.task with
  | notSpawned => exact absurd htk hsp
  | waiting =>
    obtain ⟨a, _, _, _, _, f⟩ := h.2.1 htk
    exact ⟨a, f⟩
  | exitedEarly =>
    obtain ⟨a, _, _, _, _, f, _⟩ := h.2.2.1 htk
    exact ⟨a, f⟩
  | running =>
    obtain ⟨a, _, _, _, _, f, _⟩ := h.2.2.2.1 htk
    exact ⟨a, f⟩
  | exited =>
    obtain ⟨a, _, _, _, _, f, _⟩ := h.2.2.2.2 htk
    exact ⟨a, f⟩

theorem TaskOk_runs_signal {can sig : Bool} {sp : SvcSpec} {q : SvcRt}
    (h : TaskOk can sig sp q) (hruns : 1 ≤ q.runs) : sig = true := by
  cases htk : q.task with
  | notSpawned =>
    have := (h.1 htk).2.2
    omega
  | waiting =>
    have := (h.2.1 htk).2.2.2.1
    omega
  | exitedEarly =>
    have := (h.2.2.1 htk).2.2.2.1
    omega
  | running => exact (h.2.2.2.1 htk).2.2.2.2.2.2
  | exited => exact (h.2.2.2.2 htk).2.2.2.2.2.2

/-- C1: in every reachable state of a `Voltron.Run` call, the start barrier
(`close(signal)`) has been released at most once, and whenever some service
implementation's `Run` has been invoked, the barrier has been released
(exactly once) and every registered service has completed `Prepare`
successfully (its implementation's `Init` returned nil, exactly once, and its
task was booted) before that release. -/
theorem barrier_released_once_after_all_prepare {cfg : Config} {s : OState}
    (h : Reachable cfg s) :
    s.gogoCount ≤ 1 ∧
    (∀ (i : Nat) (r : SvcRt), s.svcs[i]? = some r → 1 ≤ r.runs →
      s.gogoCount = 1 ∧
      (∀ (j : Nat) (sp : SvcSpec), cfg.services[j]? = some sp →
        sp.initRes = none ∧ ∃ q : SvcRt, s.svcs[j]? = some q ∧ q.inits = 1 ∧
          q.task ≠ .notSpawned)) := by
  obtain ⟨hlen, htask, hsg, hg1, hsigc, hrange, hid1, hid2, hpcc⟩ :=
    inv_reachable h
  refine ⟨hg1, ?_⟩
  intro i r hr hruns
  have hi : i < cfg.services.length := by
    have := getElem?_lt_length hr
    rwa [hlen] at this
  obtain ⟨sp, hsp⟩ := getElem?_is_some_of_lt hi
  have hsigT : s.signalClosed = true :=
    TaskOk_runs_signal (htask i sp r hsp hr) hruns
  obtain ⟨_, _, hspawn⟩ := hsigc hsigT
  refine ⟨hsg.mp hsigT, ?_⟩
  intro j sp2 hsp2
  have hj : j < s.svcs.length := by
    rw [hlen]
    exact getElem?_lt_length hsp2
  obtain ⟨q, hq⟩ := getElem?_is_some_of_lt hj
  have hqs : q.task ≠ .notSpawned := hspawn j q hq
  obtain ⟨hq1, hq2⟩ := TaskOk_spawned_inits (htask j sp2 q hsp2 hq) hqs
  exact ⟨hq2, q, hq, hq1, hqs⟩

/-- C2: in every reachable state, the sequence of client `Init` invocations
is a duplicate-free initial segment of the manifest in registration order
(each client initialized at most once), and whenever some service
implementation's `Run` has been invoked, every registered client's `Init` has
been invoked exactly once (so all client initializations precede every
service `Run`). -/
theorem client_init_once_before_any_run {cfg : Config} {s : OState}
    (h : Reachable cfg s) :
    (∃ k : Nat, k ≤ cfg.clients.length ∧ s.initCalls = List.range k ∧
      ∀ c : Nat, s.initCalls.count c ≤ 1) ∧
    (∀ (i : Nat) (r : SvcRt), s.svcs[i]? = some r → 1 ≤ r.runs →
      s.initCalls = List.range cfg.clients.length ∧
      ∀ c : Nat, c < cfg.clients.length → s.initCalls.count c = 1) := by
  obtain ⟨hlen, htask, hsg, hg1, hsigc, hrange, hid1, hid2, hpcc⟩ :=
    inv_reachable h
  obtain ⟨k, hk, hic⟩ := hrange
  constructor
  · refine ⟨k, hk, hic, ?_⟩
    intro c
    rw [hic]
    exact List.nodup_iff_count_le_one.mp (List.nodup_range k) c
  · intro i r hr hruns
    have hi : i < cfg.services.length := by
      have := getElem?_lt_length hr
      rwa [hlen] at this
    obtain ⟨sp, hsp⟩ := getElem?_is_some_of_lt hi
    have hsigT : s.signalClosed = true :=
      TaskOk_runs_signal (htask i sp r hsp hr) hruns
    obtain ⟨_, hicn, _⟩ := hsigc hsigT
    refine ⟨hicn, ?_⟩
    intro c hcn
    rw [hicn]
    exact List.count_eq_one_of_mem (List.nodup_range _)
      (List.mem_range.mpr hcn)

/-- C3 (amended): when Phase 1 completed successfully for every registered
client (`initDone`), every exit of `Run` calls `Shutdown` on every registered
client record, in registration order; when Phase 1 failed, `Run` returns
without calling `Shutdown` on any client. -/
theorem shutdown_all_clients_when_init_succeeded {cfg : Config} {s : OState}
    {res : Option RunError} (h : Reachable cfg s) (hpc : s.pc = .done res) :
    (s.initDone = true → s.shutdownCalls = List.range cfg.clients.length) ∧
    (s.initDone = false → s.shutdownCalls = []) := by
  obtain ⟨_, _, _, _, _, _, _, _, hpcc⟩ := inv_reachable h
  rw [hpc] at hpcc
  exact ⟨hpcc.1, fun hf => (hpcc.2 hf).1⟩

/-- C4: if `Join` was never called (`vol.cluster == nil`), every reachable
state of `Run` is either the entry state or the immediate
`ErrInvalidCluster` return, with no client `Init`, no client `Shutdown`, and
every service record untouched (no service `Init`, `Run`, keepalive or
close). -/
theorem run_without_join_no_lifecycle {cfg : Config} {s : OState}
    (hc : cfg.hasCluster = false) (h : Reachable cfg s) :
    (s.pc = .start ∨ s.pc = .done (some .invalidCluster)) ∧
    s.initCalls = [] ∧ s.shutdownCalls = [] ∧ s.svcs = freshList cfg ∧
    s.signalClosed = false := by
  obtain ⟨hlen, htask, hsg, hg1, hsigc, hrange, hid1, hid2, hpcc⟩ :=
    inv_reachable h
  have hidf : s.initDone = false := by
    cases hx : s.initDone
    · rfl
    · rw [hid2 hx] at hc
      exact nomatch hc
  cases hp : s.pc with
  | start =>
    rw [hp] at hpcc
    obtain ⟨a, b, c, d, e, f, g⟩ := hpcc
    exact ⟨Or.inl rfl, a, c, d, e⟩
  | initLoop i =>
    rw [hp] at hpcc
    rw [hpcc.1] at hc
    exact nomatch hc
  | prepLoop i =>
    rw [hp] at hpcc
    rw [hpcc.1] at hc
    exact nomatch hc
  | gogo =>
    rw [hp] at hpcc
    rw [hpcc.1] at hc
    exact nomatch hc
  | waitTasks =>
    rw [hp] at hpcc
    rw [hid2 hpcc.1] at hc
    exact nomatch hc
  | shutdownLoop i p =>
    rw [hp] at hpcc
    rw [hid2 hpcc.1] at hc
    exact nomatch hc
  | done res2 =>
    rw [hp] at hpcc
    obtain ⟨hd1, hd2⟩ := hpcc
    obtain ⟨hsd, hsv, hscl, hgc, hrest⟩ := hd2 hidf
    rcases hrest with ⟨_, hres, hicnil⟩ | ⟨hcl, _⟩
    · refine ⟨Or.inr ?_, hicnil, hsd, hsv, hscl⟩
      rw [hres]
    · rw [hcl] at hc
      exact nomatch hc

/-- C5: if the first failing registration in the manifest is client `k`
(every earlier client succeeds, client `k`'s init path yields error `e`),
then in every reachable state no client after `k` has been initialized, every
service record is untouched (no service `Init`, `Prepare` or `Run`), the
barrier is never released, no client `Shutdown` happens, and if `Run` has
returned, it returned exactly error `e`. -/
theorem client_init_failure_aborts {cfg : Config} {s : OState} {k : Nat}
    {ck : ClientKind} {e : String}
    (hc : cfg.hasCluster = true) (hk : cfg.clients[k]? = some ck)
    (he : clientRes ck = some e)
    (hmin : ∀ (j : Nat) (ck2 : ClientKind), j < k →
      cfg.clients[j]? = some ck2 → clientRes ck2 = none)
    (h : Reachable cfg s) :
    (∀ c ∈ s.initCalls, c ≤ k) ∧ s.svcs = freshList cfg ∧
    s.shutdownCalls = [] ∧ s.signalClosed = false ∧
    (∀ res, s.pc = .done res → res = some (.other e)) := by
  obtain ⟨hlen, htask, hsg, hg1, hsigc, hrange, hid1, hid2, hpcc⟩ :=
    inv_reachable h
  have hidf : s.initDone = false := by
    cases hx : s.initDone
    · rfl
    · rw [hid1 hx k ck hk] at he
      exact nomatch he
  cases hp : s.pc with
  | start =>
    rw [hp] at hpcc
    obtain ⟨a, b, c, d, e2, f, g⟩ := hpcc
    refine ⟨?_, d, c, e2, ?_⟩
    · intro x hx
      rw [a] at hx
      exact absurd hx (List.not_mem_nil x)
    · intro res hres
      exact nomatch hres
  | initLoop i =>
    rw [hp] at hpcc
    obtain ⟨hcl, hile, hic, hap, hjlt, hsd, hsv, hscl, hgc, hidf2⟩ := hpcc
    have hik : i ≤ k := by
      by_contra hcon
      have hki : k < i := Nat.lt_of_not_le hcon
      rw [hjlt k ck hki hk] at he
      exact nomatch he
    refine ⟨?_, hsv, hsd, hscl, ?_⟩
    · intro x hx
      rw [hic] at hx
      have := List.mem_range.mp hx
      omega
    · intro res hres
      exact nomatch hres
  | prepLoop i =>
    rw [hp] at hpcc
    rw [hpcc.2.1] at hidf
    exact nomatch hidf
  | gogo =>
    rw [hp] at hpcc
    rw [hpcc.2.1] at hidf
    exact nomatch hidf
  | waitTasks =>
    rw [hp] at hpcc
    rw [hpcc.1] at hidf
    exact nomatch hidf
  | shutdownLoop i p =>
    rw [hp] at hpcc
    rw [hpcc.1] at hidf
    exact nomatch hidf
  | done res =>
    rw [hp] at hpcc
    obtain ⟨hd1, hd2⟩ := hpcc
    obtain ⟨hsd, hsv, hscl, hgc, hrest⟩ := hd2 hidf
    rcases hrest with ⟨hclf, _⟩ | ⟨_, i, ck2, e2, hi, hei, hresq, hminI, hics⟩
    · rw [hclf] at hc
      exact nomatch hc
    · have hik : i = k := by
        rcases Nat.lt_trichotomy i k with hlt | heq | hgt
        · rw [hmin i ck2 hlt hi] at hei
          exact nomatch hei
        · exact heq
        · rw [hminI k ck hgt hk] at he
          exact nomatch he
      subst hik
      rw [hk] at hi
      cases hi
      rw [he] at hei
      cases hei
      refine ⟨?_, hsv, hsd, hscl, ?_⟩
      · intro x hx
        rcases hics with hics | hics <;> rw [hics] at hx <;>
          have := List.mem_range.mp hx <;> omega
      · intro res2 hres2
        cases hres2
        exact hresq

/-- C9 (amended): for a service with a reporting configuration, the reporter
handle is acquired during the prepare loop (so it is already held by any
booted task); a task past the barrier has issued exactly one keepalive before
its `Run` and has not closed the reporter; a task whose `Run` returned has
closed it exactly once; but a task that observed cancellation before the
barrier opened exits with zero keepalives and zero closes — the acquired
reporter is not closed on that path. -/
theorem reporter_scoped_to_barrier {cfg : Config} {s : OState} {j : Nat}
    {sp : SvcSpec} {r : SvcRt} (h : Reachable cfg s)
    (hsp : cfg.services[j]? = some sp) (hr : s.svcs[j]? = some r)
    (hrep : wantsReport sp = true) :
    (r.task ≠ .notSpawned → r.reporter = true) ∧
    (r.task = .waiting → r.keeps = 0 ∧ r.closes = 0) ∧
    (r.task = .exitedEarly → r.keeps = 0 ∧ r.closes = 0) ∧
    (r.task = .running → r.keeps = 1 ∧ r.closes = 0 ∧ r.runs = 1) ∧
    (r.task = .exited → r.keeps = 1 ∧ r.closes = 1 ∧ r.runs = 1) := by
  obtain ⟨hlen, htask, _, _, _, _, _, _, _⟩ := inv_reachable h
  have htok := htask j sp r hsp hr
  refine ⟨?_, fun ht => ?_, fun ht => ?_, fun ht => ?_, fun ht => ?_⟩
  · intro hns
    cases htk : r.task with
    | notSpawned => exact absurd htk hns
    | waiting => rw [(htok.2.1 htk).2.2.2.2.1, hrep]
    | exitedEarly => rw [(htok.2.2.1 htk).2.2.2.2.1, hrep]
    | running => rw [(htok.2.2.2.1 htk).2.2.2.2.1, hrep]
    | exited => rw [(htok.2.2.2.2 htk).2.2.2.2.1, hrep]
  · obtain ⟨_, hk2, hc2, _, _, _⟩ := htok.2.1 ht
    exact ⟨hk2, hc2⟩
  · obtain ⟨_, hk2, hc2, _, _, _, _⟩ := htok.2.2.1 ht
    exact ⟨hk2, hc2⟩
  · obtain ⟨_, hk2, hc2, hruns, hrp, _, _⟩ := htok.2.2.2.1 ht
    refine ⟨?_, hc2, hruns⟩
    rw [hk2]
    simp [rep1, hrp, hrep]
  · obtain ⟨_, hk2, hc2, hruns, hrp, _, _⟩ := htok.2.2.2.2 ht
    refine ⟨?_, ?_, hruns⟩
    · rw [hk2]
      simp [rep1, hrp, hrep]
    · rw [hc2]
      simp [rep1, hrp, hrep]

/-- A run with one succeeding static client and one reporting service whose
`Run` completes: the full happy path. -/
def cfgA : Config := ⟨true, [.plain none], [⟨none, "addr", 100, 10⟩]⟩

def sAfin : OState :=
  ⟨.done none, [⟨.exited, true, 1, 1, 1, 1⟩], [0], [0], [0], true, 1, true, true⟩

theorem reachA : Reachable cfgA sAfin := by
  show Relation.ReflTransGen (Step cfgA) (startState cfgA) sAfin
  refine Relation.ReflTransGen.head (Step.clusterOk _ rfl rfl) ?_
  refine Relation.ReflTransGen.head
    (Step.initOk _ 0 (.plain none) rfl rfl rfl) ?_
  refine Relation.ReflTransGen.head (Step.initLoopDone _ 1 rfl rfl) ?_
  refine Relation.ReflTransGen.head
    (Step.prepOk _ 0 ⟨none, "addr", 100, 10⟩ rfl rfl rfl) ?_
  refine Relation.ReflTransGen.head (Step.prepLoopDone _ 1 rfl rfl) ?_
  refine Relation.ReflTransGen.head (Step.gogoStep _ rfl) ?_
  refine Relation.ReflTransGen.head
    (Step.taskGo _ 0 ⟨.waiting, true, 1, 0, 0, 0⟩ rfl rfl rfl) ?_
  refine Relation.ReflTransGen.head
    (Step.taskFinish _ 0 ⟨.running, true, 1, 1, 0, 1⟩ rfl rfl) ?_
  refine Relation.ReflTransGen.head (Step.waitAllDone _ rfl (by decide)) ?_
  refine Relation.ReflTransGen.head (Step.shutdownNext _ 0 0 none rfl rfl) ?_
  refine Relation.ReflTransGen.head (Step.shutdownFinished _ 1 none rfl rfl) ?_
  exact Relation.ReflTransGen.refl

theorem barrier_released_once_after_all_prepare_witness :
    sAfin.gogoCount ≤ 1 ∧
    (∀ (i : Nat) (r : SvcRt), sAfin.svcs[i]? = some r → 1 ≤ r.runs →
      sAfin.gogoCount = 1 ∧
      (∀ (j : Nat) (sp : SvcSpec), cfgA.services[j]? = some sp →
        sp.initRes = none ∧ ∃ q : SvcRt, sAfin.svcs[j]? = some q ∧
          q.inits = 1 ∧ q.task ≠ .notSpawned)) :=
  barrier_released_once_after_all_prepare reachA

theorem client_init_once_before_any_run_witness :
    (∃ k : Nat, k ≤ cfgA.clients.length ∧ sAfin.initCalls = List.range k ∧
      ∀ c : Nat, sAfin.initCalls.count c ≤ 1) ∧
    (∀ (i : Nat) (r : SvcRt), sAfin.svcs[i]? = some r → 1 ≤ r.runs →
      sAfin.initCalls = List.range cfgA.clients.length ∧
      ∀ c : Nat, c < cfgA.clients.length → sAfin.initCalls.count c = 1) :=
  client_init_once_before_any_run reachA

theorem shutdown_all_clients_when_init_succeeded_witness :
    (sAfin.initDone = true →
      sAfin.shutdownCalls = List.range cfgA.clients.length) ∧
    (sAfin.initDone = false → sAfin.shutdownCalls = []) :=
  shutdown_all_clients_when_init_succeeded reachA rfl

theorem reporter_scoped_to_barrier_witness :
    ((⟨.exited, true, 1, 1, 1, 1⟩ : SvcRt).task ≠ .notSpawned →
      (⟨.exited, true, 1, 1, 1, 1⟩ : SvcRt).reporter = true) ∧
    ((⟨.exited, true, 1, 1, 1, 1⟩ : SvcRt).task = .waiting →
      (⟨.exited, true, 1, 1, 1, 1⟩ : SvcRt).keeps = 0 ∧
      (⟨.exited, true, 1, 1, 1, 1⟩ : SvcRt).closes = 0) ∧
    ((⟨.exited, true, 1, 1, 1, 1⟩ : SvcRt).task = .exitedEarly →
      (⟨.exited, true, 1, 1, 1, 1⟩ : SvcRt).keeps = 0 ∧
      (⟨.exited, true, 1, 1, 1, 1⟩ : SvcRt).closes = 0) ∧
    ((⟨.exited, true, 1, 1, 1, 1⟩ : SvcRt).task = .running →
      (⟨.exited, true, 1, 1, 1, 1⟩ : SvcRt).keeps = 1 ∧
      (⟨.exited, true, 1, 1, 1, 1⟩ : SvcRt).closes = 0 ∧
      (⟨.exited, true, 1, 1, 1, 1⟩ : SvcRt).runs = 1) ∧
    ((⟨.exited, true, 1, 1, 1, 1⟩ : SvcRt).task = .exited →
      (⟨.exited, true, 1, 1, 1, 1⟩ : SvcRt).keeps = 1 ∧
      (⟨.exited, true, 1, 1, 1, 1⟩ : SvcRt).closes = 1 ∧
      (⟨.exited, true, 1, 1, 1, 1⟩ : SvcRt).runs = 1) :=
  @reporter_scoped_to_barrier cfgA sAfin 0 ⟨none, "addr", 100, 10⟩
    ⟨.exited, true, 1, 1, 1, 1⟩ reachA rfl rfl (by decide)

/-- A run whose second client's `Init` fails: client 0 was initialized but
`Run` returns before the shutdown cleanup is registered. -/
def cfgC : Config :=
  ⟨true, [.plain none, .plain (some "boom")], [⟨none, "", 0, 0⟩]⟩

def sCfin : OState :=
  ⟨.done (some (.other "boom")), [SvcRt.fresh], [0], [0, 1], [], false, 0,
    false, false⟩

theorem reachC : Reachable cfgC sCfin := by
  show Relation.ReflTransGen (Step cfgC) (startState cfgC) sCfin
  refine Relation.ReflTransGen.head (Step.clusterOk _ rfl rfl) ?_
  refine Relation.ReflTransGen.head
    (Step.initOk _ 0 (.plain none) rfl rfl rfl) ?_
  refine Relation.ReflTransGen.head
    (Step.initImplFail _ 1 (.plain (some "boom")) "boom" rfl rfl rfl rfl) ?_
  exact Relation.ReflTransGen.refl

/-- C3 counterexample: in `Voltron.Run` the client-shutdown cleanup is only
registered after `vol.init` returns nil, so on the exit path where Phase 1
fails (here: client 0 initialized successfully, client 1's `Init` returns
"boom"), `Run` returns with zero `Shutdown` calls although a client record
was registered and initialized — refuting "Shutdown is called on every
registered client record on every exit path of Run". -/
theorem shutdown_skipped_on_client_init_error :
    Reachable cfgC sCfin ∧ sCfin.pc = .done (some (.other "boom")) ∧
    sCfin.initCalls = [0, 1] ∧ cfgC.clients.length = 2 ∧
    sCfin.shutdownCalls = [] :=
  ⟨reachC, rfl, rfl, rfl, rfl⟩

theorem client_init_failure_aborts_witness :
    (∀ c ∈ sCfin.initCalls, c ≤ 1) ∧ sCfin.svcs = freshList cfgC ∧
    sCfin.shutdownCalls = [] ∧ sCfin.signalClosed = false ∧
    (∀ res, sCfin.pc = .done res → res = some (.other "boom")) :=
  client_init_failure_aborts rfl rfl rfl
    (by
      intro j ck2 hj hck2
      have hj0 : j = 0 := by omega
      subst hj0
      cases hck2
      rfl)
    reachC

/-- A run that never joined a cluster. -/
def cfgD : Config := ⟨false, [.plain none], [⟨none, "a", 1, 1⟩]⟩

def sDfin : OState :=
  ⟨.done (some .invalidCluster), [SvcRt.fresh], [], [], [], false, 0, false,
    false⟩

theorem reachD : Reachable cfgD sDfin := by
  show Relation.ReflTransGen (Step cfgD) (startState cfgD) sDfin
  refine Relation.ReflTransGen.head (Step.clusterMissing _ rfl rfl) ?_
  exact Relation.ReflTransGen.refl

theorem run_without_join_no_lifecycle_witness :
    (sDfin.pc = .start ∨ sDfin.pc = .done (some .invalidCluster)) ∧
    sDfin.initCalls = [] ∧ sDfin.shutdownCalls = [] ∧
    sDfin.svcs = freshList cfgD ∧ sDfin.signalClosed = false :=
  run_without_join_no_lifecycle rfl reachD

/-- A run with one reporting service whose context is cancelled before the
barrier opens: the reporter is acquired in the prepare loop but never
closed. -/
def cfgB : Config := ⟨true, [], [⟨none, "addr", 100, 10⟩]⟩

def sBmid : OState :=
  ⟨.prepLoop 1, [⟨.waiting, true, 1, 0, 0, 0⟩], [], [], [], false, 0, false,
    true⟩

def sBfin : OState :=
  ⟨.done none, [⟨.exitedEarly, true, 1, 0, 0, 0⟩], [], [], [], true, 1, true,
    true⟩

theorem reachBmid : Reachable cfgB sBmid := by
  show Relation.ReflTransGen (Step cfgB) (startState cfgB) sBmid
  refine Relation.ReflTransGen.head (Step.clusterOk _ rfl rfl) ?_
  refine Relation.ReflTransGen.head (Step.initLoopDone _ 0 rfl rfl) ?_
  refine Relation.ReflTransGen.head
    (Step.prepOk _ 0 ⟨none, "addr", 100, 10⟩ rfl rfl rfl) ?_
  exact Relation.ReflTransGen.refl

theorem reachBfin : Reachable cfgB sBfin := by
  refine Relation.ReflTransGen.trans reachBmid ?_
  refine Relation.ReflTransGen.head (Step.envCancel _) ?_
  refine Relation.ReflTransGen.head
    (Step.taskCancelExit _ 0 ⟨.waiting, true, 1, 0, 0, 0⟩ rfl rfl rfl) ?_
  refine Relation.ReflTransGen.head (Step.prepLoopDone _ 1 rfl rfl) ?_
  refine Relation.ReflTransGen.head (Step.gogoStep _ rfl) ?_
  refine Relation.ReflTransGen.head (Step.waitAllDone _ rfl (by decide)) ?_
  refine Relation.ReflTransGen.head (Step.shutdownFinished _ 0 none rfl rfl) ?_
  exact Relation.ReflTransGen.refl

/-- C9 counterexample: in `Voltron.run` the reporter is acquired by
`NewReporter` inside the prepare loop — before the barrier release, not on
it (state `sBmid`: `reporter = true` while `gogoCount = 0`) — and in
`service.boot` the `defer reporter.Close` is only registered after the
barrier opens, so on the path where the run context is cancelled before the
barrier the completed run ends with the reporter acquired but zero
`Keepalive` and zero `Close` calls (state `sBfin`) — refuting both "the
reporter handle is acquired on barrier release" and "once acquired the
reporter is closed on every exit path … including the path where the run
context is cancelled before the barrier opens". -/
theorem reporter_leaked_on_cancel_before_barrier :
    Reachable cfgB sBmid ∧
    sBmid.svcs = [⟨.waiting, true, 1, 0, 0, 0⟩] ∧ sBmid.gogoCount = 0 ∧
    Reachable cfgB sBfin ∧ sBfin.pc = .done none ∧
    sBfin.svcs = [⟨.exitedEarly, true, 1, 0, 0, 0⟩] :=
  ⟨reachBmid, rfl, rfl, reachBfin, rfl, rfl⟩

end GoVoltron
